import Mathlib

/-!
Verification of the Compliance Analysis and Clue Selection Engine of the
hackthebias2026 repository.  The engine is shallowly embedded over
`List Char` strings: `clean_text` / `split_into_sentences` (text normalizer),
`extract_value_context` (fact extractor, including its numeric regex),
`audit_report` (finding aggregator of `sustainability_project/main.py`),
the clue-selection loop of `generate_game`, and
`analyze_gri_compliance` of `main.py`.
-/

set_option maxRecDepth 10000

/-- Strings are modelled as lists of characters. -/
abbrev Str := List Char

/-- Python whitespace class for the ASCII range, as matched by the regex
class backslash-s and by str.strip (space, tab, LF, CR, VT, FF). -/
def pyWs (c : Char) : Bool :=
  c == ' ' || c == '\t' || c == '\n' || c == '\r' || c == '\x0b' || c == '\x0c'

/-- Python digit class (ASCII range of the regex class backslash-d). -/
def pyDigit (c : Char) : Bool :=
  c.isDigit

/-- Python str.lower (ASCII model). -/
def lowerStr (s : Str) : Str :=
  s.map Char.toLower

/-- Python str.upper (ASCII model). -/
def upperStr (s : Str) : Str :=
  s.map Char.toUpper

/-- Boolean string-prefix test. -/
def isPrefixB : Str → Str → Bool
  | [], _ => true
  | _ :: _, [] => false
  | a :: as, b :: bs => a == b && isPrefixB as bs

/-- Boolean substring test; embeds the Python expression `needle in hay`. -/
def isSubstrB (needle : Str) : Str → Bool
  | [] => needle.isEmpty
  | c :: t => isPrefixB needle (c :: t) || isSubstrB needle t

/-- One pass of `re.sub(r'\s+', ' ', text)`: every maximal whitespace run is
replaced by a single space.  The flag records whether the previous character
was whitespace (in which case the run's space was already emitted). -/
def collapseWs : Str → Bool → Str
  | [], _ => []
  | c :: t, prev =>
    if pyWs c then
      if prev then collapseWs t true else ' ' :: collapseWs t true
    else c :: collapseWs t false

/-- Python str.strip: drop leading and trailing whitespace. -/
def stripWs (s : Str) : Str :=
  ((s.dropWhile pyWs).reverse.dropWhile pyWs).reverse

/-- `clean_text` of sustainability_project/main.py (and research.py):
`re.sub(r'\s+', ' ', text).strip()`. -/
def clean_text (text : Str) : Str :=
  stripWs (collapseWs text false)

/-- Splitter for `re.split(r'(?<=[.!?])\s+', text)`: a maximal whitespace run
immediately preceded by `.`, `!` or `?` is a delimiter (the lookbehind fails
inside a run, so only runs directly after terminal punctuation split).
`cur` is the current piece in reverse; `skipping` is true while consuming a
delimiter run. -/
def splitTermGo : Str → Str → Bool → List Str
  | [], cur, _ => [cur.reverse]
  | c :: t, cur, true =>
    if pyWs c then splitTermGo t cur true
    else splitTermGo t [c] false
  | c :: t, cur, false =>
    if pyWs c && (cur.head? == some '.' || cur.head? == some '!' || cur.head? == some '?') then
      cur.reverse :: splitTermGo t [] true
    else splitTermGo t (c :: cur) false

/-- `split_into_sentences` of sustainability_project/main.py, with the length
threshold as a parameter (30 there, 20 in research.py):
`[s.strip() for s in re.split(r'(?<=[.!?])\s+', text) if len(s) > k]`. -/
def split_into_sentences (k : Nat) (text : Str) : List Str :=
  (splitTermGo text [] false).filterMap
    (fun s => if s.length > k then some (stripWs s) else none)

/-- Descending list `[m, m - 1, ..., 1]`, used to enumerate greedy
quantifier extents in backtracking-priority order (longest first). -/
def descRange (m : Nat) : List Nat :=
  (List.range m).map (fun i => m - i)

/-- Candidate extents of the leading `\d+` of the numeric pattern, as
`(consumed, rest)` pairs in greedy priority order. -/
def digitsPlusCands (s : Str) : List (Str × Str) :=
  (descRange (s.takeWhile pyDigit).length).map (fun k => (s.take k, s.drop k))

/-- Candidate extents of `(?:,\d+)*` in greedy backtracking order: first the
alternatives that consume one more group (longest digit run first, then the
continuations of the tail), and last the alternative consuming nothing.
`fuel` bounds the recursion depth; each group consumes at least two
characters, so `fuel = s.length` is never exhausted on a live branch. -/
def commaStarCands : Nat → Str → List (Str × Str)
  | 0, s => [([], s)]
  | fuel + 1, s =>
    match s with
    | ',' :: t =>
      ((descRange (t.takeWhile pyDigit).length).flatMap (fun k =>
        (commaStarCands fuel (t.drop k)).map
          (fun p => (',' :: (t.take k ++ p.1), p.2)))) ++ [([], s)]
    | _ => [([], s)]

/-- Candidate extents of `(?:\.\d+)?` in greedy order: the fraction with the
longest digit run first, the empty alternative last. -/
def fracOptCands (s : Str) : List (Str × Str) :=
  match s with
  | '.' :: t =>
    ((descRange (t.takeWhile pyDigit).length).map
      (fun k => ('.' :: t.take k, t.drop k))) ++ [([], s)]
  | _ => [([], s)]

/-- `\s*` followed by the literal metric token, trying the whitespace extent
`j` first and backtracking to shorter extents. -/
def wsMetricAux (metric r : Str) : Nat → Option Str
  | 0 => if isPrefixB metric r then some metric else none
  | j + 1 =>
    if isPrefixB metric (r.drop (j + 1)) then some (r.take (j + 1) ++ metric)
    else wsMetricAux metric r j

/-- Greedy `\s*` + literal metric at the start of `r`. -/
def wsMetric (metric r : Str) : Option Str :=
  wsMetricAux metric r (r.takeWhile pyWs).length

/-- Match of the source regex
`\d+(?:,\d+)*(?:\.\d+)?\s*metric` anchored at the start of `s`, following the
backtracking priority of the Python engine; returns the matched substring. -/
def matchNumMetricAt (metric s : Str) : Option Str :=
  (digitsPlusCands s).findSome? (fun dp =>
    (commaStarCands dp.2.length dp.2).findSome? (fun cp =>
      (fracOptCands cp.2).findSome? (fun fp =>
        (wsMetric metric fp.2).map (fun wm => dp.1 ++ cp.1 ++ fp.1 ++ wm))))

/-- `re.search` of the numeric pattern: leftmost start position wins. -/
def reSearchNumMetric (metric : Str) : Str → Option Str
  | [] => matchNumMetricAt metric []
  | c :: t =>
    match matchNumMetricAt metric (c :: t) with
    | some v => some v
    | none => reSearchNumMetric metric t

/-- `extract_value_context` of sustainability_project/main.py: first keyword
(declaration order) contained in the lowercased sentence; then the first
metric (declaration order) whose number-plus-unit pattern matches; returns
the full matched substring and the keyword, else `none`. -/
def extract_value_context (sentence : Str) (keywords metrics : List Str) :
    Option (Str × Str) :=
  let sent_lower := lowerStr sentence
  match keywords.find? (fun kw => isSubstrB kw sent_lower) with
  | none => none
  | some kw =>
    match metrics.findSome? (fun metric => reSearchNumMetric metric sent_lower) with
    | some v => some (v, kw)
    | none => none

example :
    extract_value_context "Water usage hit 1,200.5 mwh overall.".toList
      ["carbon".toList, "water".toList] ["tons".toList, "mwh".toList] =
    some ("1,200.5 mwh".toList, "water".toList) := by decide

example :
    extract_value_context "We cut emissions by 40% in 2021.".toList
      ["emissions".toList] ["%".toList] =
    some ("40%".toList, "emissions".toList) := by decide

example :
    extract_value_context "We cut emissions by a lot.".toList
      ["emissions".toList] ["%".toList] = none := by decide

example :
    extract_value_context "We cut 40% somewhere.".toList
      ["emissions".toList] ["%".toList] = none := by decide

example : reSearchNumMetric "5 tons".toList "1,25 tons".toList =
    some "1,25 tons".toList := by decide

example : clean_text "  a   b\t\nc  ".toList = "a b c".toList := by decide

/-- One entry of the GRI standards taxonomy (external read-only input,
supplied to the engine by `gri_standards.py` / `GRI_STANDARDS_DATABASE.py`). -/
structure Standard where
  code : Str
  title : Str
  keywords : List Str
  required_metrics : List Str
deriving DecidableEq, Repr

/-- One finding dictionary as built by `audit_report` (keys `type`, `code`,
`word`, `clue`, `original`). -/
structure Finding where
  type : Str
  code : Str
  word : Str
  clue : Str
  original : Str
deriving DecidableEq, Repr

/-- The ambient `random` module, abstracted: `shuffle` stands for
`random.shuffle` (callers assume it permutes) and `choose` for
`random.choice`. -/
structure Rng where
  shuffle : List Str → List Str
  choose : List Str → Str

/-- `OMISSION_TEMPLATES` of sustainability_project/main.py. -/
def OMISSION_TEMPLATES : List Str :=
  [ "Surprisingly, this report fails to mention _______ standards significantly.".toList,
    "The audit reveals a lack of verified data on _______.".toList,
    "Investors looking for _______ metrics will be disappointed here.".toList,
    "Unlike peers, this company omits standard _______ disclosures.".toList,
    "A key gap in this report is the absence of _______ data.".toList ]

/-- `BIAS_TEMPLATES` of sustainability_project/main.py. -/
def BIAS_TEMPLATES : List Str :=
  [ "The report subjectively claims to be \x27_______\x27 without data.".toList,
    "Market bias detected: using terms like \x27_______\x27 lacks proof.".toList,
    "The text relies on fluff words like \x27_______\x27 instead of facts.".toList,
    "Ambiguous language found: describing efforts as \x27_______\x27 is vague.".toList,
    "Bias Alert: The company describes itself as \x27_______\x27 subjectively.".toList ]

/-- `FACT_TEMPLATES` of sustainability_project/main.py (the literal
placeholder for the value is the five characters brace-val-brace). -/
def FACT_TEMPLATES : List Str :=
  [ "The report cites a metric of \x7bval\x7d regarding _______.".toList,
    "Official data shows \x7bval\x7d related to _______ usage.".toList,
    "They disclosed \x7bval\x7d in their _______ accounting.".toList,
    "A verified figure of \x7bval\x7d was reported for _______.".toList,
    "Audit confirmation: \x7bval\x7d linked to _______ performance.".toList ]

/-- `template.format(val=val_str)`: replace each occurrence of the
brace-val-brace placeholder by the value. -/
def formatVal : Str → Str → Str
  | '\x7b' :: 'v' :: 'a' :: 'l' :: '\x7d' :: t, v => v ++ formatVal t v
  | c :: t, v => c :: formatVal t v
  | [], _ => []

/-- Message of the Python `IndexError` raised by indexing an empty list. -/
def IndexErrorMsg : Str :=
  "IndexError: list index out of range".toList

/-- The per-standard body of the coverage-and-facts loop of `audit_report`
(src/sustainability_project/main.py lines 113-175).  The only failure is the
`data[\x27keywords\x27][0]` lookup in the OMISSION branch, which raises on an
empty keyword list. -/
def auditStandard (text_lower : Str) (sentences : List Str) (std : Standard)
    (rng : Rng) : Except Str (List Finding) :=
  if std.keywords.any (fun kw => isSubstrB kw text_lower) then
    match (rng.shuffle (sentences.filter
        (fun s => std.keywords.any (fun kw => isSubstrB kw (lowerStr s))))).findSome? (fun s =>
        (extract_value_context s std.keywords std.required_metrics).map
          (fun vk => (s, vk.1, vk.2))) with
    | some (s, val_str, kw_used) =>
      .ok [{ type := "FACT".toList, code := std.code, word := upperStr kw_used,
             clue := formatVal (rng.choose FACT_TEMPLATES) val_str, original := s }]
    | none => .ok []
  else
    match std.keywords with
    | [] => .error IndexErrorMsg
    | kw0 :: _ =>
      .ok [{ type := "OMISSION".toList, code := std.code, word := upperStr kw0,
             clue := rng.choose OMISSION_TEMPLATES, original := "N/A".toList }]

/-- The coverage-and-facts loop of `audit_report` over the whole taxonomy. -/
def auditStandards (text_lower : Str) (sentences : List Str) (rng : Rng) :
    List Standard → Except Str (List Finding)
  | [] => .ok []
  | std :: rest =>
    match auditStandard text_lower sentences std rng with
    | .error e => .error e
    | .ok f =>
      match auditStandards text_lower sentences rng rest with
      | .error e => .error e
      | .ok r => .ok (f ++ r)

/-- The bias filter of `audit_report` line 180: a sentence qualifies when some
vocabulary word is a substring of its lowercasing and it contains no digit. -/
def biasQualifies (biasWords : List Str) (s : Str) : Bool :=
  biasWords.any (fun w => isSubstrB w (lowerStr s)) && !(s.any pyDigit)

/-- The bias-detection tail of `audit_report` (lines 177-194).  The
`found_fluff` head lookup cannot fail when the chosen sentence really came
from `bias_sentences`; it raises like the Python indexing if `choose`
misbehaves. -/
def biasPart (sentences : List Str) (biasWords : List Str) (rng : Rng) :
    Except Str (List Finding) :=
  if (sentences.filter (biasQualifies biasWords)).isEmpty then .ok []
  else
    match (biasWords.filter (fun w => isSubstrB w
        (lowerStr (rng.choose (sentences.filter (biasQualifies biasWords)))))).head? with
    | some found_fluff =>
      .ok [{ type := "BIAS".toList, code := "MARKETING".toList,
             word := upperStr found_fluff, clue := rng.choose BIAS_TEMPLATES,
             original := rng.choose (sentences.filter (biasQualifies biasWords)) }]
    | none => .error IndexErrorMsg

/-- `audit_report` of sustainability_project/main.py: the `analyze` entry
point of the engine (taxonomy and bias vocabulary passed explicitly; an
uncaught Python exception is the `error` case). -/
def audit_report (text : Str) (standards : List Standard)
    (biasWords : List Str) (rng : Rng) : Except Str (List Finding) :=
  match auditStandards (lowerStr text) (split_into_sentences 30 text) rng standards with
  | .error e => .error e
  | .ok stdFindings =>
    match biasPart (split_into_sentences 30 text) biasWords rng with
    | .error e => .error e
    | .ok biasFindings => .ok (stdFindings ++ biasFindings)

/-- `len(s.split())`: number of maximal non-whitespace runs. -/
def wordCountGo : Str → Bool → Nat
  | [], _ => 0
  | c :: t, inWord =>
    if pyWs c then wordCountGo t false
    else (if inWord then 0 else 1) + wordCountGo t true

/-- Number of words of a clue, as `len(f[\x27clue\x27].split())`. -/
def wordCount (s : Str) : Nat :=
  wordCountGo s false

/-- The selection loop of `generate_game` (lines 205-222): walk the
(pre-shuffled) findings, stop at five clues, skip findings whose word was
already taken or whose clue exceeds 15 words. -/
def selectCluesGo : List Finding → List Str → Nat → List Finding
  | [], _, _ => []
  | f :: rest, seen, count =>
    if count ≥ 5 then []
    else if seen.contains f.word then selectCluesGo rest seen count
    else if wordCount f.clue > 15 then selectCluesGo rest seen count
    else f :: selectCluesGo rest (f.word :: seen) (count + 1)

/-- `selectClues`: the clue-selection stage of `generate_game`, applied to the
concatenated findings of all reports (the caller shuffles beforehand). -/
def select_clues (findings : List Finding) : List Finding :=
  selectCluesGo findings [] 0

deriving instance DecidableEq for Except

/-- One entry of the dictionaries appended by `analyze_gri_compliance`
(src/main.py).  The source dictionaries carry different key sets per branch;
keys absent in a branch are modelled as empty. -/
structure AnalysisEntry where
  code : Str
  title : Str
  reason : Str
  keywords : List Str := []
  metrics : List Str := []
  word : Str := []
deriving DecidableEq, Repr

/-- The `analysis` dictionary of `analyze_gri_compliance`. -/
structure GriAnalysis where
  missing_standards : List AnalysisEntry
  misleading_content : List AnalysisEntry
  compliant_standards : List AnalysisEntry
deriving DecidableEq, Repr

/-- Python `sep.join(parts)`. -/
def joinSep (sep : Str) : List Str → Str
  | [] => []
  | [x] => x
  | x :: y :: xs => x ++ sep ++ joinSep sep (y :: xs)

/-- `analyze_gri_compliance` of src/main.py (lines 61-133).  The source fills
the three lists in one loop over the standards; each list equals the
`filterMap` of its branch condition over the taxonomy in order.  The bias
tail appends up to five entries to `misleading_content`; its surrounding
50-character context regex has a match exactly when the (lowercased) bias
word occurs in the lowercased text, and the captured context is not copied
into the appended entry, so the guard reduces to the occurrence test. -/
def analyze_gri_compliance (pdf_content : Str) (standards : List Standard)
    (biasWords : List Str) : GriAnalysis :=
  let pdf_lower := lowerStr pdf_content
  let kwFound := fun (std : Standard) =>
    std.keywords.filter (fun k => isSubstrB (lowerStr k) pdf_lower)
  let mFound := fun (std : Standard) =>
    std.required_metrics.filter (fun m => isSubstrB (lowerStr m) pdf_lower)
  let bias_found := biasWords.filter (fun w => isSubstrB (lowerStr w) pdf_lower)
  { missing_standards := standards.filterMap (fun std =>
      if (kwFound std).isEmpty && (mFound std).isEmpty then
        some { code := std.code, title := std.title,
               reason := "No keywords or metrics found for ".toList ++ std.title }
      else none)
    misleading_content := (standards.filterMap (fun std =>
      if !(kwFound std).isEmpty && (mFound std).isEmpty then
        some { code := std.code, title := std.title,
               reason := "Mentions ".toList ++ joinSep ", ".toList ((kwFound std).take 2)
                 ++ " but lacks quantitative metrics".toList,
               keywords := kwFound std }
      else none)) ++
      (bias_found.take 5).map (fun w =>
        { code := "BIAS".toList, title := "Marketing Language".toList,
          reason := "Uses subjective term \x27".toList ++ w
            ++ "\x27 without data".toList,
          word := w })
    compliant_standards := standards.filterMap (fun std =>
      if !(kwFound std).isEmpty && !(mFound std).isEmpty then
        some { code := std.code, title := std.title, reason := [],
               keywords := kwFound std, metrics := mFound std }
      else none) }

example :
    (analyze_gri_compliance "total discharge was 5 megaliters".toList
      [⟨"gri 303".toList, "Water".toList, ["water".toList], ["megaliters".toList]⟩]
      []).missing_standards = [] := by decide

example :
    (analyze_gri_compliance "total discharge was 5 megaliters".toList
      [⟨"gri 303".toList, "Water".toList, ["water".toList], ["megaliters".toList]⟩]
      []).compliant_standards = [] := by decide

/-- No two adjacent whitespace characters. -/
def NoWsRun (l : Str) : Prop :=
  List.Chain' (fun a b => ¬(pyWs a = true ∧ pyWs b = true)) l

/-- A deterministic instance of the randomness interface: identity shuffle,
`choose` takes the head. -/
def rngId : Rng :=
  { shuffle := fun l => l, choose := fun l => l.headD [] }

/-- The OMISSION finding built by the else-branch of the coverage loop (word
is the first declared keyword, uppercased). -/
def omissionFinding (std : Standard) (rng : Rng) : Finding :=
  { type := "OMISSION".toList, code := std.code,
    word := upperStr (std.keywords.headD []),
    clue := rng.choose OMISSION_TEMPLATES, original := "N/A".toList }

/-- Python word character (ASCII range of the regex class backslash-w). -/
def isWordChar (c : Char) : Bool :=
  c.isAlphanum || c == '_'

/-- Follows the spec wording (not the source): whole-word occurrence of `term`
(an occurrence whose neighbouring characters, when present, are not word
characters), scanning positions left to right with `prev` the character
before the current position. -/
def wholeWordGo (term : Str) (prev : Option Char) : Str → Bool
  | [] =>
    term.isEmpty && (match prev with | none => true | some p => !isWordChar p)
  | c :: t =>
    ((match prev with | none => true | some p => !isWordChar p) &&
      isPrefixB term (c :: t) &&
      (match ((c :: t).drop term.length).head? with
       | none => true
       | some d => !isWordChar d))
    || wholeWordGo term (some c) t

/-- Follows the spec wording (not the source): `term` occurs as a whole
word in `s`. -/
def wholeWordB (term s : Str) : Bool :=
  wholeWordGo term none s

/-- Shape of a full match of the numeric pattern, stated in the spec's words:
one or more digits, optional comma-separated digit groups (thousands
separators), an optional decimal fraction, optional whitespace, then the
metric token. -/
def NumUnit (v metric : Str) : Prop :=
  ∃ d gs f w, v = d ++ List.flatten gs ++ f ++ w ++ metric ∧
    (d ≠ [] ∧ ∀ c ∈ d, pyDigit c = true) ∧
    (∀ g ∈ gs, ∃ ds, g = ',' :: ds ∧ ds ≠ [] ∧ ∀ c ∈ ds, pyDigit c = true) ∧
    (f = [] ∨ ∃ ds, f = '.' :: ds ∧ ds ≠ [] ∧ ∀ c ∈ ds, pyDigit c = true) ∧
    (∀ c ∈ w, pyWs c = true)

/-- Two findings whose words differ only by case. -/
def c5findingA : Finding :=
  { type := "BIAS".toList, code := "MARKETING".toList, word := "Water".toList,
    clue := "short clue".toList, original := "x".toList }

/-- Second finding for the C5 counterexample. -/
def c5findingB : Finding :=
  { type := "BIAS".toList, code := "MARKETING".toList, word := "WATER".toList,
    clue := "short clue".toList, original := "x".toList }

/-- Concrete pool for the C4 witness. -/
def c4pair : List Finding :=
  [ { type := "OMISSION".toList, code := "gri 304".toList, word := "BIODIVERSITY".toList,
      clue := "The audit reveals a lack of verified data on _______.".toList,
      original := "N/A".toList },
    { type := "BIAS".toList, code := "MARKETING".toList, word := "PROUD".toList,
      clue := "Market bias detected: using terms like \x27_______\x27 lacks proof.".toList,
      original := "We are proud.".toList } ]

/-- Seven findings: five FACT findings first, then one OMISSION and one BIAS
finding, all with distinct words and short clues. -/
def c4pool : List Finding :=
  [ { type := "FACT".toList, code := "g1".toList, word := "WATER".toList,
      clue := "clue one".toList, original := "s1".toList },
    { type := "FACT".toList, code := "g2".toList, word := "ENERGY".toList,
      clue := "clue two".toList, original := "s2".toList },
    { type := "FACT".toList, code := "g3".toList, word := "WASTE".toList,
      clue := "clue three".toList, original := "s3".toList },
    { type := "FACT".toList, code := "g4".toList, word := "CARBON".toList,
      clue := "clue four".toList, original := "s4".toList },
    { type := "FACT".toList, code := "g5".toList, word := "CLIMATE".toList,
      clue := "clue five".toList, original := "s5".toList },
    { type := "OMISSION".toList, code := "g6".toList, word := "BIODIVERSITY".toList,
      clue := "clue six".toList, original := "N/A".toList },
    { type := "BIAS".toList, code := "MARKETING".toList, word := "PROUD".toList,
      clue := "clue seven".toList, original := "s7".toList } ]

/-- A standard whose keyword never occurs in the test texts. -/
def bioStd : Standard :=
  { code := "gri 304".toList, title := "Biodiversity".toList,
    keywords := ["biodiversity".toList], required_metrics := ["%".toList] }

/-- Text containing the code of `bioStd`-like standard `c2std` verbatim. -/
def c2std : Standard :=
  { code := "gri 305".toList, title := "Emissions".toList,
    keywords := ["biodiversity".toList], required_metrics := ["%".toList] }

/-- Document whose text contains the standard code `gri 305` verbatim. -/
def c2text : Str :=
  "this report follows gri 305 standards in all material respects.".toList

/-- Standard with a keyword that occurs in `c3text` but no metric match. -/
def c3std : Standard :=
  { code := "gri 303".toList, title := "Water".toList,
    keywords := ["water".toList], required_metrics := ["tons".toList] }

/-- Document mentioning the keyword `water` with no number anywhere. -/
def c3text : Str :=
  "water stewardship remains a core priority for the organization.".toList

/-- Document made of one digit-free sentence with the bias word `proud`. -/
def c6text : Str :=
  "we are the proud leader in sustainability efforts globally.".toList

/-- Bias vocabulary for the C6 witness. -/
def c6vocab : List Str :=
  ["proud".toList]

/-- The audit output on `c6text` with vocabulary `c6vocab`. -/
def c6fs : List Finding :=
  [{ type := "BIAS".toList, code := "MARKETING".toList, word := "PROUD".toList,
     clue := "The report subjectively claims to be \x27_______\x27 without data.".toList,
     original := c6text }]

/-- Digit-free sentence containing `best` only inside `asbestos`. -/
def c6cexSentence : Str :=
  "asbestos abatement work was completed at the facility".toList

/-- Standard with a non-empty keyword list and an empty metric list. -/
def c8stdA : Standard :=
  { code := "gri 303".toList, title := "Water".toList,
    keywords := ["water".toList], required_metrics := [] }

/-- Standard with an empty keyword list. -/
def c8stdB : Standard :=
  { code := "gri 999".toList, title := "Empty".toList,
    keywords := [], required_metrics := ["%".toList] }

/-- Document mentioning `water`, for the C8 counterexample. -/
def c8text : Str :=
  "water consumption was reduced across all operations.".toList

/-- Standard whose metric occurs in `c10text` but whose keyword does not. -/
def c10std : Standard :=
  { code := "gri 303".toList, title := "Water".toList,
    keywords := ["water".toList], required_metrics := ["megaliters".toList] }

/-- Document containing the metric `megaliters` but not the keyword `water`. -/
def c10text : Str :=
  "total discharge was 5 megaliters".toList

example :
    audit_report [] [⟨"gri 304".toList, "Biodiversity".toList,
        ["biodiversity".toList], ["%".toList]⟩] [] rngId =
      .ok [{ type := "OMISSION".toList, code := "gri 304".toList,
             word := "BIODIVERSITY".toList,
             clue := "Surprisingly, this report fails to mention _______ standards significantly.".toList,
             original := "N/A".toList }] := by decide

example :
    split_into_sentences 5 "We cut waste. We are proud!  ok".toList =
      ["We cut waste".toList ++ ['.'], "We are proud!".toList] := by decide

example : split_into_sentences 30 ([] : Str) = [] := by decide

example : wholeWordB "best".toList "the best tons".toList = true := by decide

example : wholeWordB "best".toList "asbestos".toList = false := by decide

lemma collapseWs_mem_ws (t : Str) :
    ∀ (b : Bool), ∀ c ∈ collapseWs t b, pyWs c = true → c = ' ' := by
  induction t with
  | nil => intro b c hc; simp [collapseWs] at hc
  | cons a t ih =>
    intro b c hc hws
    by_cases h : pyWs a = true
    · cases b with
      | true =>
        rw [show collapseWs (a :: t) true = collapseWs t true from by
          simp [collapseWs, h]] at hc
        exact ih true c hc hws
      | false =>
        rw [show collapseWs (a :: t) false = ' ' :: collapseWs t true from by
          simp [collapseWs, h]] at hc
        rcases List.mem_cons.mp hc with rfl | hc
        · rfl
        · exact ih true c hc hws
    · rw [show collapseWs (a :: t) b = a :: collapseWs t false from by
        simp [collapseWs, h]] at hc
      rcases List.mem_cons.mp hc with rfl | hc
      · exact absurd hws h
      · exact ih false c hc hws

lemma collapseWs_head_true (t : Str) :
    ∀ c, (collapseWs t true).head? = some c → pyWs c = false := by
  induction t with
  | nil => intro c hc; simp [collapseWs] at hc
  | cons a t ih =>
    intro c hc
    by_cases h : pyWs a = true
    · rw [show collapseWs (a :: t) true = collapseWs t true from by
        simp [collapseWs, h]] at hc
      exact ih c hc
    · rw [show collapseWs (a :: t) true = a :: collapseWs t false from by
        simp [collapseWs, h]] at hc
      simp only [List.head?_cons, Option.some.injEq] at hc
      subst hc
      simpa using h

lemma collapseWs_noWsRun (t : Str) : ∀ b, NoWsRun (collapseWs t b) := by
  induction t with
  | nil => intro b; simp [collapseWs, NoWsRun]
  | cons a t ih =>
    intro b
    by_cases h : pyWs a = true
    · cases b with
      | true =>
        rw [NoWsRun, show collapseWs (a :: t) true = collapseWs t true from by
          simp [collapseWs, h]]
        exact ih true
      | false =>
        rw [NoWsRun, show collapseWs (a :: t) false = ' ' :: collapseWs t true from by
          simp [collapseWs, h]]
        refine List.chain'_cons'.mpr ⟨?_, ih true⟩
        intro y hy hcon
        have hf := collapseWs_head_true t y (Option.mem_def.mp hy)
        rw [hf] at hcon
        exact absurd hcon.2 (by simp)
    · rw [NoWsRun, show collapseWs (a :: t) b = a :: collapseWs t false from by
        simp [collapseWs, h]]
      refine List.chain'_cons'.mpr ⟨?_, ih false⟩
      intro y _ hcon
      exact h hcon.1

lemma collapseWs_id (l : Str)
    (hsp : ∀ c ∈ l, pyWs c = true → c = ' ') (hrun : NoWsRun l) :
    collapseWs l false = l ∧
      ((∀ c, l.head? = some c → pyWs c = false) → collapseWs l true = l) := by
  induction l with
  | nil => exact ⟨rfl, fun _ => rfl⟩
  | cons a t ih =>
    have hsp_t : ∀ c ∈ t, pyWs c = true → c = ' ' :=
      fun c hc => hsp c (List.mem_cons_of_mem _ hc)
    have hrun_t : NoWsRun t := (List.chain'_cons'.mp hrun).2
    by_cases h : pyWs a = true
    · have ha : a = ' ' := hsp a (List.mem_cons_self a t) h
      have hhead : ∀ c, t.head? = some c → pyWs c = false := by
        intro c hc
        have hadj := (List.chain'_cons'.mp hrun).1 c (Option.mem_def.mpr hc)
        by_contra hcon
        simp only [Bool.not_eq_false] at hcon
        exact hadj ⟨h, hcon⟩
      constructor
      · rw [show collapseWs (a :: t) false = ' ' :: collapseWs t true from by
          simp [collapseWs, h]]
        rw [(ih hsp_t hrun_t).2 hhead, ha]
      · intro hh
        have := hh a rfl
        rw [this] at h
        exact absurd h (by simp)
    · constructor
      · rw [show collapseWs (a :: t) false = a :: collapseWs t false from by
          simp [collapseWs, h]]
        rw [(ih hsp_t hrun_t).1]
      · intro _
        rw [show collapseWs (a :: t) true = a :: collapseWs t false from by
          simp [collapseWs, h]]
        rw [(ih hsp_t hrun_t).1]

lemma stripWs_subset (l : Str) : stripWs l ⊆ l := by
  intro c hc
  rw [stripWs, List.mem_reverse] at hc
  have h1 := (List.dropWhile_sublist (l := (l.dropWhile pyWs).reverse) pyWs).subset hc
  rw [List.mem_reverse] at h1
  exact (List.dropWhile_sublist pyWs).subset h1

lemma noWsRun_stripWs (l : Str) (h : NoWsRun l) : NoWsRun (stripWs l) := by
  have h1 : NoWsRun (l.dropWhile pyWs) := h.suffix (List.dropWhile_suffix pyWs)
  have h2 : NoWsRun (l.dropWhile pyWs).reverse := by
    rw [NoWsRun, List.chain'_reverse]
    exact h1.imp (fun a b hab => fun hc => hab ⟨hc.2, hc.1⟩)
  have h3 : NoWsRun ((l.dropWhile pyWs).reverse.dropWhile pyWs) :=
    h2.suffix (List.dropWhile_suffix pyWs)
  rw [stripWs, NoWsRun, List.chain'_reverse]
  exact h3.imp (fun a b hab => fun hc => hab ⟨hc.2, hc.1⟩)

lemma head?_stripWs (l : Str) :
    ∀ c, (stripWs l).head? = some c → pyWs c = false := by
  intro c hc
  obtain ⟨w, hw⟩ := List.dropWhile_suffix (l := (l.dropWhile pyWs).reverse) pyWs
  have hpre : ((l.dropWhile pyWs).reverse.dropWhile pyWs).reverse ++ w.reverse
      = l.dropWhile pyWs := by
    rw [← List.reverse_append, hw, List.reverse_reverse]
  have hh : (l.dropWhile pyWs).head? = some c := by
    rw [← hpre, List.head?_append]
    rw [stripWs] at hc
    rw [hc]
    rfl
  have hx := List.head?_dropWhile_not pyWs l
  simpa [hh] using hx

lemma getLast?_stripWs (l : Str) :
    ∀ c, (stripWs l).getLast? = some c → pyWs c = false := by
  intro c hc
  rw [stripWs, List.getLast?_reverse] at hc
  have hx := List.head?_dropWhile_not pyWs ((l.dropWhile pyWs).reverse)
  simpa [hc] using hx

lemma stripWs_eq_self (l : Str)
    (h1 : ∀ c, l.head? = some c → pyWs c = false)
    (h2 : ∀ c, l.getLast? = some c → pyWs c = false) :
    stripWs l = l := by
  have d1 : l.dropWhile pyWs = l := by
    cases l with
    | nil => rfl
    | cons a t =>
      rw [List.dropWhile_cons, if_neg (by simp [h1 a rfl])]
  have d2 : l.reverse.dropWhile pyWs = l.reverse := by
    cases hl : l.reverse with
    | nil => rfl
    | cons a t =>
      have hla : l.getLast? = some a := by
        rw [← List.head?_reverse, hl]
        rfl
      rw [List.dropWhile_cons, if_neg (by simp [h2 a hla])]
  rw [stripWs, d1, d2, List.reverse_reverse]

lemma clean_text_props (t : Str) :
    (∀ c ∈ clean_text t, pyWs c = true → c = ' ') ∧ NoWsRun (clean_text t) ∧
      (∀ c, (clean_text t).head? = some c → pyWs c = false) ∧
      (∀ c, (clean_text t).getLast? = some c → pyWs c = false) := by
  refine ⟨?_, ?_, head?_stripWs _, getLast?_stripWs _⟩
  · intro c hc
    exact collapseWs_mem_ws t false c (stripWs_subset _ hc)
  · exact noWsRun_stripWs _ (collapseWs_noWsRun t false)

lemma clean_text_idem (t : Str) : clean_text (clean_text t) = clean_text t := by
  obtain ⟨hsp, hrun, hhd, hlast⟩ := clean_text_props t
  show stripWs (collapseWs (clean_text t) false) = clean_text t
  rw [(collapseWs_id _ hsp hrun).1]
  exact stripWs_eq_self _ hhd hlast

lemma selectCluesGo_sound (fs : List Finding) :
    ∀ (seen : List Str) (count : Nat),
      List.Pairwise (fun a b => a.word ≠ b.word) (selectCluesGo fs seen count) ∧
      (∀ f ∈ selectCluesGo fs seen count, seen.contains f.word = false) ∧
      (selectCluesGo fs seen count).length ≤ 5 - count := by
  induction fs with
  | nil => intro seen count; simp [selectCluesGo]
  | cons f rest ih =>
    intro seen count
    rw [selectCluesGo]
    by_cases h5 : count ≥ 5
    · simp [h5]
    · rw [if_neg h5]
      by_cases hseen : seen.contains f.word
      · rw [if_pos hseen]
        exact ih seen count
      · rw [if_neg hseen]
        by_cases hwc : wordCount f.clue > 15
        · rw [if_pos hwc]
          exact ih seen count
        · rw [if_neg hwc]
          obtain ⟨ihp, ihm, ihl⟩ := ih (f.word :: seen) (count + 1)
          refine ⟨List.pairwise_cons.mpr ⟨?_, ihp⟩, ?_, ?_⟩
          · intro g hg
            have := ihm g hg
            rw [List.contains_cons] at this
            have hne : (g.word == f.word) = false := by
              cases hb : g.word == f.word
              · rfl
              · rw [hb] at this; simp at this
            exact fun he => (beq_eq_false_iff_ne.mp hne) he.symm
          · intro g hg
            rcases List.mem_cons.mp hg with rfl | hg
            · simpa using hseen
            · have := ihm g hg
              rw [List.contains_cons, Bool.or_eq_false_iff] at this
              exact this.2
          · simp only [List.length_cons]
            omega

/-- Claim C5 (amended): `select_clues` returns clues with pairwise distinct
`word` values under exact (case-sensitive) string comparison — the source
compares `f[\x27word\x27]` against the `seen_words` set directly — and never
returns more than five clues (the fixed target count of `generate_game`). -/
theorem c5_select_unique_bounded (fs : List Finding) :
    List.Pairwise (fun a b => a.word ≠ b.word) (select_clues fs) ∧
      (select_clues fs).length ≤ 5 := by
  obtain ⟨hp, _, hl⟩ := selectCluesGo_sound fs [] 0
  exact ⟨hp, by simpa using hl⟩

/-- Claim C5, as stated, is false: the selection loop deduplicates words by
exact equality, so two findings whose words differ only by case are both
returned, and their `display_word` values are equal case-insensitively. -/
theorem c5_case_insensitive_cex :
    select_clues [c5findingA, c5findingB] = [c5findingA, c5findingB] ∧
      lowerStr c5findingA.word = lowerStr c5findingB.word ∧
      c5findingA.word ≠ c5findingB.word := by
  refine ⟨by decide, by decide, by decide⟩

lemma selectCluesGo_all (fs : List Finding) :
    ∀ (seen : List Str) (count : Nat),
      count + fs.length ≤ 5 →
      (∀ f ∈ fs, seen.contains f.word = false) →
      List.Pairwise (fun a b => a.word ≠ b.word) fs →
      (∀ f ∈ fs, wordCount f.clue ≤ 15) →
      selectCluesGo fs seen count = fs := by
  induction fs with
  | nil => intro seen count _ _ _ _; rfl
  | cons f rest ih =>
    intro seen count hlen hseen hpair hwc
    rw [selectCluesGo]
    rw [if_neg (by simp only [List.length_cons] at hlen; omega)]
    rw [if_neg (by rw [hseen f (List.mem_cons_self f rest)]; simp)]
    rw [if_neg (by have := hwc f (List.mem_cons_self f rest); omega)]
    congr 1
    refine ih (f.word :: seen) (count + 1) ?_ ?_ ?_ ?_
    · simp only [List.length_cons] at hlen; omega
    · intro g hg
      rw [List.contains_cons, Bool.or_eq_false_iff]
      refine ⟨?_, hseen g (List.mem_cons_of_mem f hg)⟩
      exact beq_eq_false_iff_ne.mpr
        (fun he => (List.pairwise_cons.mp hpair).1 g hg he.symm)
    · exact (List.pairwise_cons.mp hpair).2
    · exact fun g hg => hwc g (List.mem_cons_of_mem f hg)

/-- Claim C4 (amended): the selection loop applies no diversity quota — it
keeps findings greedily in list order — so the guarantee of at least one
OMISSION and one BIAS clue only holds in restricted situations, e.g. when
the pool has at most five findings, pairwise distinct words, and clues of at
most fifteen words, in which case every finding (in particular the OMISSION
and the BIAS one) is returned. -/
theorem c4_small_pool_diversity (fs : List Finding)
    (hlen : fs.length ≤ 5)
    (hpair : List.Pairwise (fun a b => a.word ≠ b.word) fs)
    (hwc : ∀ f ∈ fs, wordCount f.clue ≤ 15)
    (hom : ∃ f ∈ fs, f.type = "OMISSION".toList)
    (hbias : ∃ f ∈ fs, f.type = "BIAS".toList) :
    (∃ f ∈ select_clues fs, f.type = "OMISSION".toList) ∧
      (∃ f ∈ select_clues fs, f.type = "BIAS".toList) := by
  have hall : select_clues fs = fs :=
    selectCluesGo_all fs [] 0 (by omega) (by simp) hpair hwc
  rw [hall]
  exact ⟨hom, hbias⟩

theorem c4_small_pool_diversity_witness :
    (∃ f ∈ select_clues c4pair, f.type = "OMISSION".toList) ∧
      (∃ f ∈ select_clues c4pair, f.type = "BIAS".toList) :=
  c4_small_pool_diversity c4pair (by decide)
    (by decide) (by decide) (by decide) (by decide)

/-- Claim C4, as stated, is false on the code: the selection loop has no
diversity quota, so a pool whose first five findings are FACT findings
yields a result with no OMISSION and no BIAS clue even though both are
present in the pool (and the fixed target count five is at least three). -/
theorem c4_no_diversity_quota_cex :
    (c4pool.filter (fun f => f.type == "OMISSION".toList)).length = 1 ∧
      (c4pool.filter (fun f => f.type == "BIAS".toList)).length = 1 ∧
      ((select_clues c4pool).filter (fun f => f.type == "OMISSION".toList)).length = 0 ∧
      ((select_clues c4pool).filter (fun f => f.type == "BIAS".toList)).length = 0 := by
  refine ⟨by decide, by decide, by decide, by decide⟩

/-- Claim C9: `clean_text` (the normalizer) is idempotent, so segmentation of
a twice-normalized text agrees with segmentation of the once-normalized text,
and `split_into_sentences` is a pure function, stable across repeated calls
on the same normalized text. -/
theorem c9_normalize_idem_segment_stable (t : Str) (k : Nat) :
    clean_text (clean_text t) = clean_text t ∧
      split_into_sentences k (clean_text (clean_text t))
        = split_into_sentences k (clean_text t) ∧
      split_into_sentences k (clean_text t) = split_into_sentences k (clean_text t) := by
  refine ⟨clean_text_idem t, ?_, rfl⟩
  rw [clean_text_idem t]

lemma isPrefixB_iff (a : Str) : ∀ b : Str, isPrefixB a b = true ↔ a <+: b := by
  induction a with
  | nil => intro b; simp [isPrefixB]
  | cons x xs ih =>
    intro b
    cases b with
    | nil => simp [isPrefixB]
    | cons y ys =>
      simp only [isPrefixB, Bool.and_eq_true, beq_iff_eq, ih, List.cons_prefix_cons]

lemma isSubstrB_iff (n : Str) : ∀ h : Str, isSubstrB n h = true ↔ n <:+: h := by
  intro h
  induction h with
  | nil =>
    simp [isSubstrB, List.isEmpty_iff]
  | cons c t ih =>
    rw [isSubstrB, Bool.or_eq_true, isPrefixB_iff, ih, List.infix_cons_iff]

lemma auditStandard_ok_types (tl : Str) (sents : List Str) (std : Standard)
    (rng : Rng) (g : List Finding)
    (h : auditStandard tl sents std rng = .ok g) :
    ∀ f ∈ g, f.code = std.code ∧
      (f.type = "FACT".toList ∨ f.type = "OMISSION".toList) := by
  rw [auditStandard] at h
  by_cases hkw : std.keywords.any (fun kw => isSubstrB kw tl) = true
  · rw [if_pos hkw] at h
    rcases hm : (rng.shuffle (sents.filter
        (fun s => std.keywords.any (fun kw => isSubstrB kw (lowerStr s))))).findSome?
        (fun s => (extract_value_context s std.keywords std.required_metrics).map
          (fun vk => (s, vk.1, vk.2))) with _ | ⟨s, v, k⟩
    · rw [hm] at h
      simp only [Except.ok.injEq] at h
      subst h
      intro f hf
      simp at hf
    · rw [hm] at h
      simp only [Except.ok.injEq] at h
      subst h
      intro f hf
      rcases List.mem_singleton.mp hf with rfl
      exact ⟨rfl, Or.inl rfl⟩
  · rw [if_neg hkw] at h
    cases hk : std.keywords with
    | nil => rw [hk] at h; exact absurd h (by simp)
    | cons kw0 rest =>
      rw [hk] at h
      simp only [Except.ok.injEq] at h
      subst h
      intro f hf
      rcases List.mem_singleton.mp hf with rfl
      exact ⟨rfl, Or.inr rfl⟩

lemma auditStandard_kwTrue_types (tl : Str) (sents : List Str) (std : Standard)
    (rng : Rng) (g : List Finding)
    (hkw : std.keywords.any (fun kw => isSubstrB kw tl) = true)
    (h : auditStandard tl sents std rng = .ok g) :
    ∀ f ∈ g, f.type = "FACT".toList := by
  rw [auditStandard, if_pos hkw] at h
  rcases hm : (rng.shuffle (sents.filter
      (fun s => std.keywords.any (fun kw => isSubstrB kw (lowerStr s))))).findSome?
      (fun s => (extract_value_context s std.keywords std.required_metrics).map
        (fun vk => (s, vk.1, vk.2))) with _ | ⟨s, v, k⟩
  · rw [hm] at h
    simp only [Except.ok.injEq] at h
    subst h
    intro f hf
    simp at hf
  · rw [hm] at h
    simp only [Except.ok.injEq] at h
    subst h
    intro f hf
    rcases List.mem_singleton.mp hf with rfl
    rfl

lemma auditStandard_kwFalse_ok (tl : Str) (sents : List Str) (std : Standard)
    (rng : Rng) (g : List Finding)
    (hkw : std.keywords.any (fun kw => isSubstrB kw tl) = false)
    (h : auditStandard tl sents std rng = .ok g) :
    g = [omissionFinding std rng] := by
  rw [auditStandard, if_neg (by simp [hkw])] at h
  cases hk : std.keywords with
  | nil => rw [hk] at h; exact absurd h (by simp)
  | cons kw0 rest =>
    rw [hk] at h
    simp only [Except.ok.injEq] at h
    subst h
    simp [omissionFinding, hk]

lemma auditStandard_nilKw (tl : Str) (sents : List Str) (std : Standard)
    (rng : Rng) (hk : std.keywords = []) :
    auditStandard tl sents std rng = .error IndexErrorMsg := by
  rw [auditStandard, hk]
  simp

lemma auditStandard_ok_of_kw_ne (tl : Str) (sents : List Str) (std : Standard)
    (rng : Rng) (hk : std.keywords ≠ []) :
    ∃ g, auditStandard tl sents std rng = .ok g := by
  rw [auditStandard]
  by_cases hkw : std.keywords.any (fun kw => isSubstrB kw tl) = true
  · rw [if_pos hkw]
    rcases hm : (rng.shuffle (sents.filter
        (fun s => std.keywords.any (fun kw => isSubstrB kw (lowerStr s))))).findSome?
        (fun s => (extract_value_context s std.keywords std.required_metrics).map
          (fun vk => (s, vk.1, vk.2))) with _ | ⟨s, v, k⟩
    · exact ⟨[], by rw [hm]⟩
    · exact ⟨_, by rw [hm]⟩
  · rw [if_neg hkw]
    cases hkc : std.keywords with
    | nil => exact absurd hkc hk
    | cons kw0 rest => exact ⟨_, rfl⟩

lemma auditStandards_cons_ok (tl : Str) (sents : List Str) (rng : Rng)
    (std : Standard) (rest : List Standard) (fs : List Finding)
    (h : auditStandards tl sents rng (std :: rest) = .ok fs) :
    ∃ g r, auditStandard tl sents std rng = .ok g ∧
      auditStandards tl sents rng rest = .ok r ∧ fs = g ++ r := by
  rw [auditStandards] at h
  rcases h1 : auditStandard tl sents std rng with e | g
  · rw [h1] at h; exact absurd h (by simp)
  · rw [h1] at h
    rcases h2 : auditStandards tl sents rng rest with e | r
    · rw [h2] at h; exact absurd h (by simp)
    · rw [h2] at h
      simp only [Except.ok.injEq] at h
      exact ⟨g, r, rfl, rfl, h.symm⟩

lemma auditStandards_ok_types (tl : Str) (sents : List Str) (rng : Rng) :
    ∀ (stds : List Standard) (fs : List Finding),
      auditStandards tl sents rng stds = .ok fs →
      ∀ f ∈ fs, ∃ std ∈ stds, f.code = std.code ∧
        (f.type = "FACT".toList ∨ f.type = "OMISSION".toList) := by
  intro stds
  induction stds with
  | nil =>
    intro fs h f hf
    rw [auditStandards] at h
    simp only [Except.ok.injEq] at h
    subst h
    simp at hf
  | cons std rest ih =>
    intro fs h f hf
    obtain ⟨g, r, h1, h2, rfl⟩ := auditStandards_cons_ok tl sents rng std rest fs h
    rcases List.mem_append.mp hf with hg | hr
    · obtain ⟨hc, ht⟩ := auditStandard_ok_types tl sents std rng g h1 f hg
      exact ⟨std, List.mem_cons_self std rest, hc, ht⟩
    · obtain ⟨std', hmem, hrest⟩ := ih r h2 f hr
      exact ⟨std', List.mem_cons_of_mem _ hmem, hrest⟩

lemma biasPart_ok_types (sents : List Str) (bw : List Str) (rng : Rng)
    (g : List Finding) (h : biasPart sents bw rng = .ok g) :
    ∀ f ∈ g, f.type = "BIAS".toList ∧ f.code = "MARKETING".toList := by
  rw [biasPart] at h
  by_cases he : (sents.filter (biasQualifies bw)).isEmpty = true
  · rw [if_pos he] at h
    simp only [Except.ok.injEq] at h
    subst h
    intro f hf
    simp at hf
  · rw [if_neg he] at h
    rcases hh : (bw.filter (fun w => isSubstrB w
        (lowerStr (rng.choose (sents.filter (biasQualifies bw)))))).head? with _ | w
    · rw [hh] at h; exact absurd h (by simp)
    · rw [hh] at h
      simp only [Except.ok.injEq] at h
      subst h
      intro f hf
      rcases List.mem_singleton.mp hf with rfl
      exact ⟨rfl, rfl⟩

lemma biasPart_empty (sents : List Str) (bw : List Str) (rng : Rng)
    (h : sents.filter (biasQualifies bw) = []) :
    biasPart sents bw rng = .ok [] := by
  rw [biasPart, if_pos (by simp [h])]

lemma biasPart_ok_nonempty (sents : List Str) (bw : List Str) (rng : Rng)
    (g : List Finding) (h : biasPart sents bw rng = .ok g)
    (hne : sents.filter (biasQualifies bw) ≠ []) : g ≠ [] := by
  rw [biasPart, if_neg (by simp [List.isEmpty_iff, hne])] at h
  rcases hh : (bw.filter (fun w => isSubstrB w
      (lowerStr (rng.choose (sents.filter (biasQualifies bw)))))).head? with _ | w
  · rw [hh] at h; exact absurd h (by simp)
  · rw [hh] at h
    simp only [Except.ok.injEq] at h
    subst h
    simp

lemma audit_report_ok_decomp (text : Str) (stds : List Standard) (bw : List Str)
    (rng : Rng) (fs : List Finding) (h : audit_report text stds bw rng = .ok fs) :
    ∃ a b, auditStandards (lowerStr text) (split_into_sentences 30 text) rng stds = .ok a ∧
      biasPart (split_into_sentences 30 text) bw rng = .ok b ∧ fs = a ++ b := by
  rw [audit_report] at h
  rcases ha : auditStandards (lowerStr text) (split_into_sentences 30 text) rng stds with e | a
  · rw [ha] at h; exact absurd h (by simp)
  · rw [ha] at h
    rcases hb : biasPart (split_into_sentences 30 text) bw rng with e | b
    · rw [hb] at h; exact absurd h (by simp)
    · rw [hb] at h
      simp only [Except.ok.injEq] at h
      exact ⟨a, b, rfl, rfl, h.symm⟩

lemma audit_report_ok_of (text : Str) (stds : List Standard) (bw : List Str)
    (rng : Rng) (a b : List Finding)
    (ha : auditStandards (lowerStr text) (split_into_sentences 30 text) rng stds = .ok a)
    (hb : biasPart (split_into_sentences 30 text) bw rng = .ok b) :
    audit_report text stds bw rng = .ok (a ++ b) := by
  rw [audit_report, ha, hb]

lemma auditStandards_omission_filter (tl : Str) (sents : List Str) (rng : Rng) :
    ∀ (stds : List Standard) (a : List Finding) (std : Standard),
      (stds.map (fun s => s.code)).Nodup →
      auditStandards tl sents rng stds = .ok a →
      std ∈ stds →
      a.filter (fun f => f.type == "OMISSION".toList && f.code == std.code) =
        (if std.keywords.any (fun kw => isSubstrB kw tl) then []
         else [omissionFinding std rng]) := by
  intro stds
  induction stds with
  | nil => intro a std _ _ hmem; simp at hmem
  | cons s rest ih =>
    intro a std hnd h hmem
    obtain ⟨g, r, h1, h2, rfl⟩ := auditStandards_cons_ok tl sents rng s rest a h
    have hnd2 : (s.code :: rest.map (fun s => s.code)).Nodup := by
      rw [List.map_cons] at hnd
      exact hnd
    have hnd' := List.nodup_cons.mp hnd2
    rw [List.filter_append]
    rcases List.mem_cons.mp hmem with rfl | hmem'
    · have hrz : r.filter
          (fun f => f.type == "OMISSION".toList && f.code == std.code) = [] := by
        rw [List.filter_eq_nil_iff]
        intro f hf hcon
        obtain ⟨std', hs', hc, _⟩ := auditStandards_ok_types tl sents rng rest r h2 f hf
        rw [Bool.and_eq_true, beq_iff_eq, beq_iff_eq] at hcon
        have : std.code ∈ rest.map (fun s => s.code) := by
          rw [← hcon.2, hc]
          exact List.mem_map_of_mem _ hs'
        exact hnd'.1 this
      rw [hrz, List.append_nil]
      by_cases hkw : std.keywords.any (fun kw => isSubstrB kw tl) = true
      · rw [if_pos hkw, List.filter_eq_nil_iff]
        intro f hf hcon
        have := auditStandard_kwTrue_types tl sents std rng g hkw h1 f hf
        rw [Bool.and_eq_true, beq_iff_eq, beq_iff_eq] at hcon
        rw [this] at hcon
        exact absurd hcon.1 (by decide)
      · have hkwf : std.keywords.any (fun kw => isSubstrB kw tl) = false := by
          revert hkw; cases std.keywords.any (fun kw => isSubstrB kw tl) <;> simp
        rw [if_neg hkw, auditStandard_kwFalse_ok tl sents std rng g hkwf h1]
        simp [omissionFinding]
    · have hgz : g.filter
          (fun f => f.type == "OMISSION".toList && f.code == std.code) = [] := by
        rw [List.filter_eq_nil_iff]
        intro f hf hcon
        obtain ⟨hc, _⟩ := auditStandard_ok_types tl sents s rng g h1 f hf
        rw [Bool.and_eq_true, beq_iff_eq, beq_iff_eq] at hcon
        have : s.code ∈ rest.map (fun s => s.code) := by
          rw [hc] at hcon
          rw [hcon.2]
          exact List.mem_map_of_mem _ hmem'
        exact hnd'.1 this
      rw [hgz, List.nil_append]
      exact ih r std hnd'.2 h2 hmem'

lemma auditStandard_no_sentences (tl : Str) (std : Standard) (rng : Rng)
    (hperm : ∀ l, (rng.shuffle l).Perm l) (hk : std.keywords ≠ []) :
    auditStandard tl [] std rng =
      .ok (if std.keywords.any (fun kw => isSubstrB kw tl) then []
           else [omissionFinding std rng]) := by
  rw [auditStandard]
  by_cases hkw : std.keywords.any (fun kw => isSubstrB kw tl) = true
  · rw [if_pos hkw, if_pos hkw]
    have h0 : rng.shuffle (List.filter
        (fun s => std.keywords.any (fun kw => isSubstrB kw (lowerStr s))) []) = [] :=
      (hperm _).eq_nil
    rw [h0]
    rfl
  · rw [if_neg hkw, if_neg hkw]
    cases hkc : std.keywords with
    | nil => exact absurd hkc hk
    | cons kw0 rest => simp [omissionFinding, hkc]

lemma auditStandards_no_sentences (tl : Str) (rng : Rng)
    (hperm : ∀ l, (rng.shuffle l).Perm l) :
    ∀ stds : List Standard, (∀ std ∈ stds, std.keywords ≠ []) →
      auditStandards tl [] rng stds =
        .ok (stds.filterMap (fun std =>
          if std.keywords.any (fun kw => isSubstrB kw tl) then none
          else some (omissionFinding std rng))) := by
  intro stds
  induction stds with
  | nil => intro _; rfl
  | cons std rest ih =>
    intro hks
    rw [auditStandards,
      auditStandard_no_sentences tl std rng hperm (hks std (List.mem_cons_self std rest)),
      ih (fun s hs => hks s (List.mem_cons_of_mem _ hs))]
    by_cases hkw : std.keywords.any (fun kw => isSubstrB kw tl) = true
    · rw [if_pos hkw]
      show Except.ok (([] : List Finding) ++ _) = _
      rw [List.nil_append, List.filterMap_cons, if_pos hkw]
    · rw [if_neg hkw]
      show Except.ok ([omissionFinding std rng] ++ _) = _
      rw [List.filterMap_cons, if_neg hkw, List.singleton_append]

/-- Claim C1 (amended): on input whose normalized text yields zero qualifying
sentences, `audit_report` does not fail (given permuting shuffle and standards
with non-empty keyword lists), but it does NOT return an empty finding list in
general: it returns exactly one OMISSION finding for every standard none of
whose keywords occurs in the (full) text, and no FACT or BIAS finding. -/
theorem c1_zero_sentences_omissions (text : Str) (stds : List Standard)
    (bw : List Str) (rng : Rng)
    (hperm : ∀ l, (rng.shuffle l).Perm l)
    (hsent : split_into_sentences 30 text = [])
    (hks : ∀ std ∈ stds, std.keywords ≠ []) :
    audit_report text stds bw rng = .ok (stds.filterMap (fun std =>
      if std.keywords.any (fun kw => isSubstrB kw (lowerStr text)) then none
      else some (omissionFinding std rng))) := by
  have ha := auditStandards_no_sentences (lowerStr text) rng hperm stds hks
  have hb : biasPart (split_into_sentences 30 text) bw rng = .ok [] := by
    rw [hsent]
    exact biasPart_empty [] bw rng rfl
  have hc := audit_report_ok_of text stds bw rng _ [] (by rw [hsent]; exact ha) hb
  simpa using hc

theorem c1_zero_sentences_omissions_witness :
    audit_report [] [bioStd] [] rngId = .ok [omissionFinding bioStd rngId] := by
  rw [c1_zero_sentences_omissions [] [bioStd] [] rngId
    (fun l => List.Perm.refl _) rfl (by decide)]
  decide

/-- Claim C1, as stated, is false: for empty input (zero qualifying
sentences) and a one-standard taxonomy, `audit_report` returns a one-element
OMISSION list, not the empty list. -/
theorem c1_empty_input_nonempty_cex :
    clean_text [] = [] ∧ split_into_sentences 30 ([] : Str) = [] ∧
      audit_report [] [bioStd] [] rngId ≠ .ok [] := by
  refine ⟨rfl, rfl, by decide⟩

/-- Claim C2 (amended): `audit_report` never emits an EXPLICIT_MENTION
finding — every emitted finding has type FACT, OMISSION or BIAS.  The code
has no explicit-code-mention short-circuit: a standard whose code appears
verbatim in the text is classified by keyword/metric logic like any other. -/
theorem c2_no_explicit_mention (text : Str) (stds : List Standard)
    (bw : List Str) (rng : Rng) (fs : List Finding)
    (h : audit_report text stds bw rng = .ok fs) :
    ∀ f ∈ fs, f.type = "FACT".toList ∨ f.type = "OMISSION".toList ∨
      f.type = "BIAS".toList := by
  obtain ⟨a, b, ha, hb, rfl⟩ := audit_report_ok_decomp text stds bw rng fs h
  intro f hf
  rcases List.mem_append.mp hf with hfa | hfb
  · obtain ⟨std, _, _, ht⟩ :=
      auditStandards_ok_types (lowerStr text) (split_into_sentences 30 text) rng stds a ha f hfa
    rcases ht with h1 | h1
    · exact Or.inl h1
    · exact Or.inr (Or.inl h1)
  · exact Or.inr (Or.inr
      (biasPart_ok_types (split_into_sentences 30 text) bw rng b hb f hfb).1)

theorem c2_no_explicit_mention_witness :
    (omissionFinding bioStd rngId).type = "FACT".toList ∨
      (omissionFinding bioStd rngId).type = "OMISSION".toList ∨
      (omissionFinding bioStd rngId).type = "BIAS".toList :=
  c2_no_explicit_mention [] [bioStd] [] rngId [omissionFinding bioStd rngId]
    (by decide) (omissionFinding bioStd rngId) (by decide)

/-- Claim C2, as stated, is false: with the code `gri 305` appearing verbatim
in the text (and its keyword absent), `audit_report` emits zero
EXPLICIT_MENTION findings and one OMISSION finding for that code, while the
claim demands exactly one EXPLICIT_MENTION and no OMISSION. -/
theorem c2_explicit_mention_cex :
    isSubstrB c2std.code (lowerStr c2text) = true ∧
      audit_report c2text [c2std] [] rngId = .ok [omissionFinding c2std rngId] ∧
      ([omissionFinding c2std rngId].filter
        (fun f => f.type == "EXPLICIT_MENTION".toList)).length = 0 ∧
      ([omissionFinding c2std rngId].filter
        (fun f => f.type == "OMISSION".toList && f.code == c2std.code)).length = 1 := by
  refine ⟨by decide, by decide, by decide, by decide⟩

/-- Claim C3 (amended): `audit_report` emits exactly one OMISSION finding for
a standard (anchored to the first declared keyword, uppercased) precisely
when NONE of its keywords occurs in the document text; on KEYWORD_ONLY
coverage (a keyword present but no metric backing) it emits no OMISSION
finding for that standard (and possibly no finding at all). -/
theorem c3_omission_iff_not_covered (text : Str) (stds : List Standard)
    (bw : List Str) (rng : Rng) (fs : List Finding) (std : Standard)
    (hnd : (stds.map (fun s => s.code)).Nodup)
    (h : audit_report text stds bw rng = .ok fs)
    (hmem : std ∈ stds) :
    (std.keywords.any (fun kw => isSubstrB kw (lowerStr text)) = false →
       fs.filter (fun f => f.type == "OMISSION".toList && f.code == std.code) =
         [omissionFinding std rng]) ∧
    (std.keywords.any (fun kw => isSubstrB kw (lowerStr text)) = true →
       fs.filter (fun f => f.type == "OMISSION".toList && f.code == std.code) = []) := by
  obtain ⟨a, b, ha, hb, rfl⟩ := audit_report_ok_decomp text stds bw rng fs h
  have hbz : b.filter (fun f => f.type == "OMISSION".toList && f.code == std.code) = [] := by
    rw [List.filter_eq_nil_iff]
    intro f hf hcon
    have ht := (biasPart_ok_types (split_into_sentences 30 text) bw rng b hb f hf).1
    rw [Bool.and_eq_true, beq_iff_eq, beq_iff_eq] at hcon
    rw [ht] at hcon
    exact absurd hcon.1 (by decide)
  have hm := auditStandards_omission_filter (lowerStr text)
    (split_into_sentences 30 text) rng stds a std hnd ha hmem
  constructor
  · intro hkw
    rw [List.filter_append, hbz, List.append_nil, hm, if_neg (by simp [hkw])]
  · intro hkw
    rw [List.filter_append, hbz, List.append_nil, hm, if_pos hkw]

theorem c3_omission_iff_not_covered_witness :
    ([omissionFinding bioStd rngId] : List Finding).filter
      (fun f => f.type == "OMISSION".toList && f.code == bioStd.code)
      = [omissionFinding bioStd rngId] :=
  (c3_omission_iff_not_covered [] [bioStd] [] rngId
    [omissionFinding bioStd rngId] bioStd (by decide) (by decide) (by decide)).1
    (by decide)

/-- Claim C3, as stated, is false for KEYWORD_ONLY coverage: with keyword
`water` present in the text but no metric backing, `audit_report` emits NO
finding at all for the standard (the claim demands exactly one OMISSION). -/
theorem c3_keyword_only_no_omission_cex :
    isSubstrB "water".toList (lowerStr c3text) = true ∧
      audit_report c3text [c3std] [] rngId = .ok [] := by
  refine ⟨by decide, by decide⟩

/-- Claim C6 (amended): a sentence is classified as a bias sentence exactly
when some vocabulary term occurs as a case-insensitive SUBSTRING of it (not a
whole-word match: the source uses Python's `in`) and it contains no digit;
accordingly, an audited document yields a BIAS finding exactly when some
qualifying sentence exists. -/
theorem c6_bias_iff_substring_no_digit (text : Str) (stds : List Standard)
    (bw : List Str) (rng : Rng) (fs : List Finding)
    (h : audit_report text stds bw rng = .ok fs) :
    ((∃ f ∈ fs, f.type = "BIAS".toList) ↔
       ∃ s ∈ split_into_sentences 30 text,
         (∃ w ∈ bw, isSubstrB w (lowerStr s) = true) ∧ ∀ c ∈ s, pyDigit c = false) ∧
    (∀ s : Str, biasQualifies bw s = true ↔
       ((∃ w ∈ bw, isSubstrB w (lowerStr s) = true) ∧ ∀ c ∈ s, pyDigit c = false)) := by
  have hpred : ∀ s : Str, biasQualifies bw s = true ↔
      ((∃ w ∈ bw, isSubstrB w (lowerStr s) = true) ∧ ∀ c ∈ s, pyDigit c = false) := by
    intro s
    rw [biasQualifies, Bool.and_eq_true, List.any_eq_true, Bool.not_eq_true',
      List.any_eq_false]
    constructor
    · rintro ⟨h1, h2⟩
      exact ⟨h1, fun c hc => by simpa using h2 c hc⟩
    · rintro ⟨h1, h2⟩
      exact ⟨h1, fun c hc => by simp [h2 c hc]⟩
  refine ⟨?_, hpred⟩
  obtain ⟨a, b, ha, hb, rfl⟩ := audit_report_ok_decomp text stds bw rng fs h
  constructor
  · rintro ⟨f, hf, htype⟩
    rcases List.mem_append.mp hf with hfa | hfb
    · obtain ⟨std, _, _, ht⟩ := auditStandards_ok_types (lowerStr text)
        (split_into_sentences 30 text) rng stds a ha f hfa
      rcases ht with h1 | h1 <;> rw [htype] at h1
      · exact absurd h1 (by decide)
      · exact absurd h1 (by decide)
    · have hbne : b ≠ [] := by
        intro hbe
        rw [hbe] at hfb
        simp at hfb
      by_cases hfe : (split_into_sentences 30 text).filter (biasQualifies bw) = []
      · rw [biasPart_empty (split_into_sentences 30 text) bw rng hfe] at hb
        simp only [Except.ok.injEq] at hb
        exact absurd hb.symm hbne
      · obtain ⟨s0, hs0⟩ := List.exists_mem_of_ne_nil _ hfe
        have hs0' := List.mem_filter.mp hs0
        exact ⟨s0, hs0'.1, (hpred s0).mp hs0'.2⟩
  · rintro ⟨s, hsmem, hcond⟩
    have hq : biasQualifies bw s = true := (hpred s).mpr hcond
    have hfe : (split_into_sentences 30 text).filter (biasQualifies bw) ≠ [] := by
      intro h0
      have hmemf : s ∈ (split_into_sentences 30 text).filter (biasQualifies bw) :=
        List.mem_filter.mpr ⟨hsmem, hq⟩
      rw [h0] at hmemf
      simp at hmemf
    have hbne := biasPart_ok_nonempty (split_into_sentences 30 text) bw rng b hb hfe
    obtain ⟨f, hf⟩ := List.exists_mem_of_ne_nil _ hbne
    exact ⟨f, List.mem_append_right _ hf,
      (biasPart_ok_types (split_into_sentences 30 text) bw rng b hb f hf).1⟩

theorem c6_bias_iff_substring_no_digit_witness :
    ∃ f ∈ c6fs, f.type = "BIAS".toList :=
  (c6_bias_iff_substring_no_digit c6text [] c6vocab rngId c6fs (by decide)).1.mpr
    ⟨c6text, by decide, ⟨"proud".toList, by decide, by decide⟩, by decide⟩

/-- Claim C6, as stated, is false: the detector matches vocabulary terms as
substrings, not whole words — the digit-free sentence about `asbestos` is
classified as bias for vocabulary `best` although `best` has no whole-word
occurrence in it. -/
theorem c6_substring_not_wholeword_cex :
    biasQualifies ["best".toList] c6cexSentence = true ∧
      wholeWordB "best".toList (lowerStr c6cexSentence) = false ∧
      c6cexSentence.any pyDigit = false := by
  refine ⟨by decide, by decide, by decide⟩

lemma rngId_choose_mem : ∀ l : List Str, l ≠ [] → rngId.choose l ∈ l := by
  intro l hl
  cases l with
  | nil => exact absurd rfl hl
  | cons a t => exact List.mem_cons_self a t

/-- Claim C8 (amended): `audit_report` performs no upfront taxonomy
validation.  A standard with an empty keyword list makes the OMISSION branch
raise an IndexError during analysis; a standard with a NON-empty keyword list
is processed without error even when its required-metric set is empty (it
then simply can never yield a FACT finding). -/
theorem c8_no_upfront_validation (text : Str) (bw : List Str) (rng : Rng)
    (std : Standard)
    (hchoose : ∀ l : List Str, l ≠ [] → rng.choose l ∈ l) :
    (std.keywords = [] → audit_report text [std] bw rng = .error IndexErrorMsg) ∧
    (std.keywords ≠ [] → (audit_report text [std] bw rng).isOk = true) := by
  constructor
  · intro hk
    rw [audit_report, auditStandards,
      auditStandard_nilKw (lowerStr text) (split_into_sentences 30 text) std rng hk]
  · intro hk
    obtain ⟨g, hg⟩ := auditStandard_ok_of_kw_ne (lowerStr text)
      (split_into_sentences 30 text) std rng hk
    have hstds : auditStandards (lowerStr text) (split_into_sentences 30 text)
        rng [std] = .ok (g ++ []) := by
      rw [auditStandards, hg, auditStandards]
    obtain ⟨b, hb⟩ : ∃ b, biasPart (split_into_sentences 30 text) bw rng = .ok b := by
      rw [biasPart]
      by_cases he : ((split_into_sentences 30 text).filter (biasQualifies bw)).isEmpty = true
      · exact ⟨[], by rw [if_pos he]⟩
      · rw [if_neg he]
        have hne : (split_into_sentences 30 text).filter (biasQualifies bw) ≠ [] := by
          simpa [List.isEmpty_iff] using he
        have hcm := hchoose _ hne
        have hq : biasQualifies bw
            (rng.choose ((split_into_sentences 30 text).filter (biasQualifies bw))) = true :=
          (List.mem_filter.mp hcm).2
        rw [biasQualifies, Bool.and_eq_true] at hq
        obtain ⟨w, hw, hwsub⟩ := List.any_eq_true.mp hq.1
        have hmemf : w ∈ bw.filter (fun w => isSubstrB w
            (lowerStr (rng.choose ((split_into_sentences 30 text).filter
              (biasQualifies bw))))) :=
          List.mem_filter.mpr ⟨hw, hwsub⟩
        rcases hh : (bw.filter (fun w => isSubstrB w
            (lowerStr (rng.choose ((split_into_sentences 30 text).filter
              (biasQualifies bw)))))).head? with _ | w'
        · rw [List.head?_eq_none_iff] at hh
          rw [hh] at hmemf
          simp at hmemf
        · exact ⟨_, rfl⟩
    rw [audit_report, hstds, hb]
    rfl

theorem c8_no_upfront_validation_witness :
    audit_report [] [c8stdB] [] rngId = .error IndexErrorMsg ∧
      (audit_report c8text [c8stdA] [] rngId).isOk = true :=
  ⟨(c8_no_upfront_validation [] [] rngId c8stdB rngId_choose_mem).1 rfl,
   (c8_no_upfront_validation c8text [] rngId c8stdA rngId_choose_mem).2 (by decide)⟩

/-- Claim C8, as stated, is false: a taxonomy entry with an EMPTY
required-metric set is not rejected — `audit_report` proceeds through the
whole analysis and returns normally (here with no findings at all). -/
theorem c8_empty_metrics_proceeds_cex :
    c8stdA.required_metrics = [] ∧
      audit_report c8text [c8stdA] [] rngId = .ok [] := by
  refine ⟨rfl, by decide⟩

/-- Claim C10: in `analyze_gri_compliance` the three output categories do not
partition the taxonomy — a standard with a required-metric token occurring in
the lowercased text but no keyword occurring is placed in none of
`missing_standards`, `misleading_content`, `compliant_standards`. -/
theorem c10_metric_without_keyword_uncategorized (pdf : Str)
    (stds : List Standard) (bw : List Str) (std : Standard)
    (hnd : (stds.map (fun s => s.code)).Nodup)
    (hmem : std ∈ stds)
    (hmet : std.required_metrics.any
      (fun m => isSubstrB (lowerStr m) (lowerStr pdf)) = true)
    (hkw : std.keywords.any
      (fun k => isSubstrB (lowerStr k) (lowerStr pdf)) = false)
    (hcode : std.code ≠ "BIAS".toList) :
    std.code ∉ (analyze_gri_compliance pdf stds bw).missing_standards.map
        (fun e => e.code) ∧
      std.code ∉ (analyze_gri_compliance pdf stds bw).misleading_content.map
        (fun e => e.code) ∧
      std.code ∉ (analyze_gri_compliance pdf stds bw).compliant_standards.map
        (fun e => e.code) := by
  have hinj := List.inj_on_of_nodup_map hnd
  have hmf : std.required_metrics.filter
      (fun m => isSubstrB (lowerStr m) (lowerStr pdf)) ≠ [] := by
    obtain ⟨m, hm, hms⟩ := List.any_eq_true.mp hmet
    intro h0
    have hx : m ∈ std.required_metrics.filter
        (fun m => isSubstrB (lowerStr m) (lowerStr pdf)) :=
      List.mem_filter.mpr ⟨hm, hms⟩
    rw [h0] at hx
    simp at hx
  have hkf : std.keywords.filter
      (fun k => isSubstrB (lowerStr k) (lowerStr pdf)) = [] := by
    rw [List.filter_eq_nil_iff]
    intro k hk
    exact List.any_eq_false.mp hkw k hk
  refine ⟨?_, ?_, ?_⟩
  · intro hcon
    simp only [analyze_gri_compliance, List.mem_map] at hcon
    obtain ⟨e, he, hec⟩ := hcon
    rw [List.mem_filterMap] at he
    obtain ⟨std', hstd', hf⟩ := he
    by_cases hc : ((std'.keywords.filter
          (fun k => isSubstrB (lowerStr k) (lowerStr pdf))).isEmpty &&
        (std'.required_metrics.filter
          (fun m => isSubstrB (lowerStr m) (lowerStr pdf))).isEmpty) = true
    · rw [if_pos hc] at hf
      simp only [Option.some.injEq] at hf
      subst hf
      have heq : std' = std := hinj hstd' hmem hec
      subst heq
      rw [Bool.and_eq_true] at hc
      have h2 := hc.2
      rw [List.isEmpty_iff] at h2
      exact hmf h2
    · rw [if_neg hc] at hf
      exact absurd hf (by simp)
  · intro hcon
    simp only [analyze_gri_compliance, List.mem_map] at hcon
    obtain ⟨e, he, hec⟩ := hcon
    rw [List.mem_append] at he
    rcases he with he | he
    · rw [List.mem_filterMap] at he
      obtain ⟨std', hstd', hf⟩ := he
      by_cases hc : ((!(std'.keywords.filter
            (fun k => isSubstrB (lowerStr k) (lowerStr pdf))).isEmpty) &&
          (std'.required_metrics.filter
            (fun m => isSubstrB (lowerStr m) (lowerStr pdf))).isEmpty) = true
      · rw [if_pos hc] at hf
        simp only [Option.some.injEq] at hf
        subst hf
        have heq : std' = std := hinj hstd' hmem hec
        subst heq
        rw [Bool.and_eq_true] at hc
        have h1 := hc.1
        rw [hkf] at h1
        simp at h1
      · rw [if_neg hc] at hf
        exact absurd hf (by simp)
    · rw [List.mem_map] at he
      obtain ⟨w, hwmem, hwe⟩ := he
      subst hwe
      exact hcode hec.symm
  · intro hcon
    simp only [analyze_gri_compliance, List.mem_map] at hcon
    obtain ⟨e, he, hec⟩ := hcon
    rw [List.mem_filterMap] at he
    obtain ⟨std', hstd', hf⟩ := he
    by_cases hc : ((!(std'.keywords.filter
          (fun k => isSubstrB (lowerStr k) (lowerStr pdf))).isEmpty) &&
        (!(std'.required_metrics.filter
          (fun m => isSubstrB (lowerStr m) (lowerStr pdf))).isEmpty)) = true
    · rw [if_pos hc] at hf
      simp only [Option.some.injEq] at hf
      subst hf
      have heq : std' = std := hinj hstd' hmem hec
      subst heq
      rw [Bool.and_eq_true] at hc
      have h1 := hc.1
      rw [hkf] at h1
      simp at h1
    · rw [if_neg hc] at hf
      exact absurd hf (by simp)

theorem c10_metric_without_keyword_uncategorized_witness :
    c10std.code ∉ (analyze_gri_compliance c10text [c10std] []).missing_standards.map
        (fun e => e.code) ∧
      c10std.code ∉ (analyze_gri_compliance c10text [c10std] []).misleading_content.map
        (fun e => e.code) ∧
      c10std.code ∉ (analyze_gri_compliance c10text [c10std] []).compliant_standards.map
        (fun e => e.code) :=
  c10_metric_without_keyword_uncategorized c10text [c10std] [] c10std
    (by decide) (by decide) (by decide) (by decide) (by decide)

lemma take_all_of_takeWhile (p : Char → Bool) (s : Str) (k : Nat)
    (hk : k ≤ (s.takeWhile p).length) : ∀ c ∈ s.take k, p c = true := by
  intro c hc
  obtain ⟨t, ht⟩ := List.takeWhile_prefix (l := s) p
  have hs : s.take k = (s.takeWhile p).take k := by
    conv_lhs => rw [← ht]
    exact List.take_append_of_le_length hk
  rw [hs] at hc
  exact List.mem_takeWhile_imp (List.take_subset _ _ hc)

lemma descRange_mem (m : Nat) : ∀ k ∈ descRange m, 1 ≤ k ∧ k ≤ m := by
  intro k hk
  rw [descRange, List.mem_map] at hk
  obtain ⟨i, hi, rfl⟩ := hk
  rw [List.mem_range] at hi
  omega

lemma take_ne_nil_of_le_takeWhile (p : Char → Bool) (s : Str) (k : Nat)
    (hk1 : 1 ≤ k) (hk2 : k ≤ (s.takeWhile p).length) : s.take k ≠ [] := by
  intro h0
  rcases List.take_eq_nil_iff.mp h0 with rfl | rfl
  · omega
  · simp at hk2
    omega

lemma digitsPlusCands_mem (s d r : Str) (h : (d, r) ∈ digitsPlusCands s) :
    s = d ++ r ∧ d ≠ [] ∧ ∀ c ∈ d, pyDigit c = true := by
  rw [digitsPlusCands, List.mem_map] at h
  obtain ⟨k, hk, hpair⟩ := h
  obtain ⟨hk1, hk2⟩ := descRange_mem _ k hk
  cases hpair
  exact ⟨(List.take_append_drop k s).symm,
    take_ne_nil_of_le_takeWhile pyDigit s k hk1 hk2,
    take_all_of_takeWhile pyDigit s k hk2⟩

lemma commaStarCands_mem : ∀ (fuel : Nat) (s c r : Str),
    (c, r) ∈ commaStarCands fuel s →
    s = c ++ r ∧ ∃ gs : List Str, c = List.flatten gs ∧
      ∀ g ∈ gs, ∃ ds, g = ',' :: ds ∧ ds ≠ [] ∧ ∀ ch ∈ ds, pyDigit ch = true := by
  intro fuel
  induction fuel with
  | zero =>
    intro s c r h
    rw [commaStarCands.eq_1] at h
    rcases List.mem_singleton.mp h with hp
    cases hp
    exact ⟨rfl, [], rfl, by simp⟩
  | succ fuel ih =>
    intro s c r h
    cases s with
    | nil =>
      rw [commaStarCands.eq_3 _ fuel (by intro t2 ht2; simp at ht2)] at h
      rcases List.mem_singleton.mp h with hp
      cases hp
      exact ⟨rfl, [], rfl, by simp⟩
    | cons a t =>
      by_cases ha : a = ','
      · subst ha
        rw [commaStarCands.eq_2] at h
        rcases List.mem_append.mp h with h1 | h1
        · rw [List.mem_flatMap] at h1
          obtain ⟨k, hk, h2⟩ := h1
          obtain ⟨hk1, hk2⟩ := descRange_mem _ k hk
          rw [List.mem_map] at h2
          obtain ⟨p, hp, hpair⟩ := h2
          cases hpair
          obtain ⟨hsplit, gs', hgs', hprops⟩ := ih (t.drop k) p.1 p.2 (by
            rw [Prod.mk.eta]
            exact hp)
          refine ⟨?_, (',' :: t.take k) :: gs', ?_, ?_⟩
          · show ',' :: t = ',' :: (t.take k ++ p.1) ++ p.2
            rw [List.cons_append, List.append_assoc, ← hsplit,
              List.take_append_drop]
          · show ',' :: (t.take k ++ p.1) = (',' :: t.take k) ++ List.flatten gs'
            rw [List.cons_append, hgs']
          · intro g hg
            rcases List.mem_cons.mp hg with rfl | hg
            · exact ⟨t.take k, rfl,
                take_ne_nil_of_le_takeWhile pyDigit t k hk1 hk2,
                take_all_of_takeWhile pyDigit t k hk2⟩
            · exact hprops g hg
        · rcases List.mem_singleton.mp h1 with hp
          cases hp
          exact ⟨rfl, [], rfl, by simp⟩
      · rw [commaStarCands.eq_3 _ fuel (by
          intro t2 ht2
          rw [List.cons.injEq] at ht2
          exact ha ht2.1)] at h
        rcases List.mem_singleton.mp h with hp
        cases hp
        exact ⟨rfl, [], rfl, by simp⟩

lemma fracOptCands_mem (s f r : Str) (h : (f, r) ∈ fracOptCands s) :
    s = f ++ r ∧ (f = [] ∨
      ∃ ds, f = '.' :: ds ∧ ds ≠ [] ∧ ∀ c ∈ ds, pyDigit c = true) := by
  rw [fracOptCands.eq_def] at h
  split at h
  · next t =>
    rcases List.mem_append.mp h with h1 | h1
    · rw [List.mem_map] at h1
      obtain ⟨k, hk, hpair⟩ := h1
      obtain ⟨hk1, hk2⟩ := descRange_mem _ k hk
      cases hpair
      refine ⟨?_, Or.inr ⟨t.take k, rfl,
        take_ne_nil_of_le_takeWhile pyDigit t k hk1 hk2,
        take_all_of_takeWhile pyDigit t k hk2⟩⟩
      show '.' :: t = '.' :: t.take k ++ t.drop k
      rw [List.cons_append, List.take_append_drop]
    · rcases List.mem_singleton.mp h1 with hp
      cases hp
      exact ⟨rfl, Or.inl rfl⟩
  · rcases List.mem_singleton.mp h with hp
    cases hp
    exact ⟨rfl, Or.inl rfl⟩

lemma wsMetricAux_some (metric r : Str) : ∀ (j : Nat) (v : Str),
    j ≤ (r.takeWhile pyWs).length → wsMetricAux metric r j = some v →
    (∃ w, v = w ++ metric ∧ ∀ c ∈ w, pyWs c = true) ∧ v <+: r := by
  intro j
  induction j with
  | zero =>
    intro v _ h
    rw [wsMetricAux] at h
    by_cases hp : isPrefixB metric r = true
    · rw [if_pos hp] at h
      simp only [Option.some.injEq] at h
      subst h
      exact ⟨⟨[], by simp, by simp⟩, (isPrefixB_iff _ _).mp hp⟩
    · rw [if_neg hp] at h
      exact absurd h (by simp)
  | succ j ih =>
    intro v hj h
    rw [wsMetricAux] at h
    by_cases hp : isPrefixB metric (r.drop (j + 1)) = true
    · rw [if_pos hp] at h
      simp only [Option.some.injEq] at h
      subst h
      refine ⟨⟨r.take (j + 1), rfl, take_all_of_takeWhile pyWs r (j + 1) hj⟩, ?_⟩
      obtain ⟨t2, ht2⟩ := (isPrefixB_iff _ _).mp hp
      refine ⟨t2, ?_⟩
      rw [List.append_assoc, ht2, List.take_append_drop]
    · rw [if_neg hp] at h
      exact ih v (by omega) h

lemma wsMetric_some (metric r v : Str) (h : wsMetric metric r = some v) :
    (∃ w, v = w ++ metric ∧ ∀ c ∈ w, pyWs c = true) ∧ v <+: r :=
  wsMetricAux_some metric r _ v le_rfl h

lemma matchNumMetricAt_some (metric s v : Str)
    (h : matchNumMetricAt metric s = some v) :
    NumUnit v metric ∧ v <+: s := by
  rw [matchNumMetricAt] at h
  obtain ⟨dp, hdp, h1⟩ := List.exists_of_findSome?_eq_some h
  obtain ⟨cp, hcp, h2⟩ := List.exists_of_findSome?_eq_some h1
  obtain ⟨fp, hfp, h3⟩ := List.exists_of_findSome?_eq_some h2
  rcases hw : wsMetric metric fp.2 with _ | wm
  · rw [hw] at h3
    exact absurd h3 (by simp)
  · rw [hw, Option.map_some'] at h3
    simp only [Option.some.injEq] at h3
    subst h3
    obtain ⟨hs1, hd_ne, hd_dig⟩ := digitsPlusCands_mem s dp.1 dp.2
      (by rw [Prod.mk.eta]; exact hdp)
    obtain ⟨hs2, gs, hgs, hgs_props⟩ := commaStarCands_mem dp.2.length dp.2 cp.1 cp.2
      (by rw [Prod.mk.eta]; exact hcp)
    obtain ⟨hs3, hfrac⟩ := fracOptCands_mem cp.2 fp.1 fp.2
      (by rw [Prod.mk.eta]; exact hfp)
    obtain ⟨⟨w, hwmv, hw_ws⟩, hwpre⟩ := wsMetric_some metric fp.2 wm hw
    constructor
    · refine ⟨dp.1, gs, fp.1, w, ?_, ⟨hd_ne, hd_dig⟩, hgs_props, hfrac, hw_ws⟩
      rw [hwmv, ← hgs]
      simp [List.append_assoc]
    · obtain ⟨t2, ht2⟩ := hwpre
      refine ⟨t2, ?_⟩
      rw [hs1, hs2, hs3, ← ht2]
      simp [List.append_assoc]

lemma reSearchNumMetric_some (metric : Str) : ∀ (s v : Str),
    reSearchNumMetric metric s = some v →
    ∃ i, matchNumMetricAt metric (s.drop i) = some v ∧
      ∀ j < i, matchNumMetricAt metric (s.drop j) = none := by
  intro s
  induction s with
  | nil =>
    intro v h
    rw [reSearchNumMetric] at h
    exact ⟨0, h, fun j hj => absurd hj (by omega)⟩
  | cons a t ih =>
    intro v h
    rw [reSearchNumMetric] at h
    rcases hm : matchNumMetricAt metric (a :: t) with _ | v0
    · rw [hm] at h
      obtain ⟨i, hi, hj⟩ := ih v h
      refine ⟨i + 1, ?_, ?_⟩
      · rwa [List.drop_succ_cons]
      · intro j hj2
        cases j with
        | zero => simpa using hm
        | succ j2 =>
          rw [List.drop_succ_cons]
          exact hj j2 (by omega)
    · rw [hm] at h
      simp only [Option.some.injEq] at h
      subst h
      exact ⟨0, hm, fun j hj => absurd hj (by omega)⟩

lemma find?_decomp (p : Str → Bool) : ∀ (l : List Str) (a : Str),
    l.find? p = some a →
    ∃ pre post, l = pre ++ a :: post ∧ (∀ x ∈ pre, p x = false) ∧ p a = true := by
  intro l
  induction l with
  | nil => intro a h; simp at h
  | cons x xs ih =>
    intro a h
    rw [List.find?_cons] at h
    cases hp : p x with
    | false =>
      rw [hp] at h
      obtain ⟨pre, post, rfl, hpre, hpa⟩ := ih a h
      refine ⟨x :: pre, post, rfl, ?_, hpa⟩
      intro y hy
      rcases List.mem_cons.mp hy with rfl | hy
      · exact hp
      · exact hpre y hy
    | true =>
      rw [hp] at h
      simp only [Option.some.injEq] at h
      subst h
      exact ⟨[], xs, rfl, by simp, hp⟩

lemma findSome?_decomp (g : Str → Option Str) : ∀ (l : List Str) (b : Str),
    l.findSome? g = some b →
    ∃ pre x post, l = pre ++ x :: post ∧ (∀ y ∈ pre, g y = none) ∧
      g x = some b := by
  intro l
  induction l with
  | nil => intro b h; simp at h
  | cons x xs ih =>
    intro b h
    rw [List.findSome?_cons] at h
    rcases hg : g x with _ | b0
    · rw [hg] at h
      obtain ⟨pre, y, post, rfl, hpre, hy⟩ := ih b h
      refine ⟨x :: pre, y, post, rfl, ?_, hy⟩
      intro z hz
      rcases List.mem_cons.mp hz with rfl | hz
      · exact hg
      · exact hpre z hz
    · rw [hg] at h
      simp only [Option.some.injEq] at h
      subst h
      exact ⟨[], x, xs, rfl, by simp, hg⟩

/-- Claim C7: `extract_value_context` selects the first keyword in declared
order contained in the (lowercased) sentence; with that fixed, it scans
metrics in declared order and returns, for the first metric whose pattern
(one or more digits, optional comma groups, optional decimal fraction,
optional whitespace, then the metric token) has a match, the full matched
numeric-plus-unit substring — the leftmost match in the sentence — together
with the keyword; with no keyword present or no metric match, it returns
none. -/
theorem c7_extract_first_keyword_first_metric (sentence : Str)
    (keywords metrics : List Str) :
    (∀ v k, extract_value_context sentence keywords metrics = some (v, k) →
      (∃ pre post, keywords = pre ++ k :: post ∧
         (∀ kw ∈ pre, isSubstrB kw (lowerStr sentence) = false) ∧
         isSubstrB k (lowerStr sentence) = true) ∧
      (∃ mpre m mpost, metrics = mpre ++ m :: mpost ∧
         (∀ m2 ∈ mpre, reSearchNumMetric m2 (lowerStr sentence) = none) ∧
         reSearchNumMetric m (lowerStr sentence) = some v ∧
         NumUnit v m ∧
         ∃ i, matchNumMetricAt m ((lowerStr sentence).drop i) = some v ∧
           (∀ j < i, matchNumMetricAt m ((lowerStr sentence).drop j) = none) ∧
           v <+: (lowerStr sentence).drop i)) ∧
    ((∀ kw ∈ keywords, isSubstrB kw (lowerStr sentence) = false) →
       extract_value_context sentence keywords metrics = none) ∧
    (∀ k, keywords.find? (fun kw => isSubstrB kw (lowerStr sentence)) = some k →
       (∀ m ∈ metrics, reSearchNumMetric m (lowerStr sentence) = none) →
       extract_value_context sentence keywords metrics = none) := by
  refine ⟨?_, ?_, ?_⟩
  · intro v k h
    simp only [extract_value_context] at h
    rcases hfk : keywords.find? (fun kw => isSubstrB kw (lowerStr sentence)) with _ | kw
    · rw [hfk] at h
      exact absurd h (by simp)
    · rw [hfk] at h
      rcases hfm : metrics.findSome?
          (fun m => reSearchNumMetric m (lowerStr sentence)) with _ | v0
      · rw [hfm] at h
        exact absurd h (by simp)
      · rw [hfm] at h
        simp only [Option.some.injEq, Prod.mk.injEq] at h
        obtain ⟨rfl, rfl⟩ := h
        constructor
        · obtain ⟨pre, post, rfl, hpre, hpk⟩ := find?_decomp _ keywords kw hfk
          exact ⟨pre, post, rfl, hpre, hpk⟩
        · obtain ⟨mpre, m, mpost, rfl, hmpre, hmm⟩ :=
            findSome?_decomp _ metrics v0 hfm
          obtain ⟨i, hi, hj⟩ := reSearchNumMetric_some m (lowerStr sentence) v0 hmm
          obtain ⟨hnum, hpref⟩ :=
            matchNumMetricAt_some m ((lowerStr sentence).drop i) v0 hi
          exact ⟨mpre, m, mpost, rfl, hmpre, hmm, hnum, i, hi, hj, hpref⟩
  · intro hall
    have hno : keywords.find? (fun kw => isSubstrB kw (lowerStr sentence)) = none :=
      List.find?_eq_none.mpr (fun x hx => by simp [hall x hx])
    simp only [extract_value_context, hno]
  · intro k hfk hnone
    have hm : metrics.findSome?
        (fun m => reSearchNumMetric m (lowerStr sentence)) = none :=
      List.findSome?_eq_none_iff.mpr hnone
    simp only [extract_value_context, hfk, hm]

theorem c7_extract_first_keyword_first_metric_witness :
    (∃ pre post, ["carbon".toList, "water".toList] = pre ++ "water".toList :: post ∧
       (∀ kw ∈ pre, isSubstrB kw
         (lowerStr "Water usage hit 1,200.5 mwh overall.".toList) = false) ∧
       isSubstrB "water".toList
         (lowerStr "Water usage hit 1,200.5 mwh overall.".toList) = true) ∧
    (∃ mpre m mpost, ["tons".toList, "mwh".toList] = mpre ++ m :: mpost ∧
       (∀ m2 ∈ mpre, reSearchNumMetric m2
         (lowerStr "Water usage hit 1,200.5 mwh overall.".toList) = none) ∧
       reSearchNumMetric m
         (lowerStr "Water usage hit 1,200.5 mwh overall.".toList) =
           some "1,200.5 mwh".toList ∧
       NumUnit "1,200.5 mwh".toList m ∧
       ∃ i, matchNumMetricAt m
           ((lowerStr "Water usage hit 1,200.5 mwh overall.".toList).drop i) =
             some "1,200.5 mwh".toList ∧
         (∀ j < i, matchNumMetricAt m
           ((lowerStr "Water usage hit 1,200.5 mwh overall.".toList).drop j) = none) ∧
         "1,200.5 mwh".toList <+:
           (lowerStr "Water usage hit 1,200.5 mwh overall.".toList).drop i) :=
  (c7_extract_first_keyword_first_metric "Water usage hit 1,200.5 mwh overall.".toList
    ["carbon".toList, "water".toList] ["tons".toList, "mwh".toList]).1
    "1,200.5 mwh".toList "water".toList (by decide)
